import Mathlib
/-!
Verification of the steve-adams.me repository.

This file shallowly embeds the testable logic of the repository:

* `GitGuard`   — the `git-guard.sh` command-guard hook script;
* `Assembly`   — the assembly-line demo widget (`AssemblyLine.vue`);
* `Posts`      — frontmatter extraction (`generateSidebar.js` / `getAllPosts`)
                 and the post content loader (`posts.data.js`);
* `Rss`        — the RSS feed generator (`rss.mjs` / `genFeed`).

Machine floats appearing in the source (material lengths, sizes) are embedded
as rationals; JavaScript `Date` parsing and the ECMA-262 `Array.prototype.sort`
contract are modelled by executable Lean functions whose doc comments state the
modelling conventions.
-/
set_option maxHeartbeats 4000000
set_option maxRecDepth 20000

namespace GitGuard

/-!
Embedding of `git-guard.sh`:

```
COMMAND=$(jq -r '.tool_input.command // empty')
[[ -z "$COMMAND" ]] && exit 0

if echo "$COMMAND" | grep -qE '\bgit\b.*\b(commit|push)\b|\bgit\b.*\breset\b.*--hard\b'; then
  echo "Blocked: prohibited git operation" >&2
  echo "Stop vibe coding and do it yourself" >&2
  exit 2
fi
```

The `jq` extraction is modelled by an `Option String` input: `none` stands for
an absent or `null` `tool_input.command` field (where `// empty` produces no
output, so `COMMAND` is the empty string).  `grep -qE` succeeds iff some line
of its input matches the extended regex; word boundaries `\b`, alternation and
`.*` are given their standard POSIX/GNU-grep semantics below.
-/

/-- A regex word character (`\w` / the characters relevant to `\b`):
alphanumeric or underscore. -/
def isWordChar (c : Char) : Bool := c.isAlphanum || c == '_'

/-- The literal list `w` occurs in `s` starting at index `i`. -/
def sublistAt (w s : List Char) (i : Nat) : Bool :=
  decide ((s.drop i).take w.length = w)

/-- A `\b` word boundary holds just before index `i` for a token starting with
a word character: either `i` is the start of the line or the previous
character is not a word character. -/
def boundaryBefore (s : List Char) (i : Nat) : Bool :=
  i == 0 ||
    (match s[i-1]? with
     | some c => !isWordChar c
     | none => true)

/-- A `\b` word boundary holds just after a token ending at index `i`
(exclusive) for a token ending in a word character: either the line ends there
or the next character is not a word character. -/
def boundaryAfter (s : List Char) (i : Nat) : Bool :=
  match s[i]? with
  | some c => !isWordChar c
  | none => true

/-- Whether `\bw\b` matches in `s` at index `i` (for words made of word characters). -/
def wordAt (w s : List Char) (i : Nat) : Bool :=
  sublistAt w s i && boundaryBefore s i && boundaryAfter s (i + w.length)

/-- The regex `\bgit\b.*\b(commit|push)\b` matches somewhere in the line `s`:
a word-bounded `git` followed (at distance at least its own length, `.` not
crossing newlines — `s` is a single line) by a word-bounded `commit` or
`push`. -/
def matchesGitCommitPush (s : List Char) : Bool :=
  (List.range (s.length + 1)).any fun i =>
    wordAt "git".data s i &&
      (List.range (s.length + 1)).any fun j =>
        decide (i + 3 ≤ j) && (wordAt "commit".data s j || wordAt "push".data s j)

/-- The regex `\bgit\b.*\breset\b.*--hard\b` matches somewhere in the line
`s`.  Note the regex has no boundary before `--hard` (a `-` is not a word
character) but does require a boundary after it. -/
def matchesGitResetHard (s : List Char) : Bool :=
  (List.range (s.length + 1)).any fun i =>
    wordAt "git".data s i &&
      (List.range (s.length + 1)).any fun j =>
        decide (i + 3 ≤ j) && wordAt "reset".data s j &&
          (List.range (s.length + 1)).any fun k =>
            decide (j + 5 ≤ k) && sublistAt "--hard".data s k &&
              boundaryAfter s (k + 6)

/-- Split a character sequence into its newline-separated lines (the lines
`grep` operates on). -/
def splitLines : List Char → List (List Char)
  | [] => [[]]
  | c :: cs =>
    if c = '\n' then [] :: splitLines cs
    else
      match splitLines cs with
      | l :: ls => (c :: l) :: ls
      | [] => [[c]]

/-- Result of `grep -qE '\bgit\b.*\b(commit|push)\b|\bgit\b.*\breset\b.*--hard\b'`
applied to `echo "$COMMAND"`: some line of the command matches one of the two
alternatives. -/
def blockedCommand (cmd : String) : Bool :=
  (splitLines cmd.data).any fun line =>
    matchesGitCommitPush line || matchesGitResetHard line

/-- Observable behaviour of one invocation of the guard script: everything it
writes to standard output and to standard error, and its exit status.  The
script never writes to standard output on any path. -/
structure GuardResult where
  stdoutLines : List String
  stderrLines : List String
  exitCode : Nat
deriving Repr, DecidableEq

/-- The two diagnostic lines the script sends to standard error on a match. -/
def blockedMessage : List String :=
  ["Blocked: prohibited git operation", "Stop vibe coding and do it yourself"]

/-- The whole guard script, as a function from the extracted
`tool_input.command` value (`none` = field absent or `null`) to its observable
behaviour.  An empty command exits `0` immediately; a command matching the
blocklist regex writes the two diagnostics to standard error and exits `2`;
any other command exits `0` writing nothing. -/
def gitGuard (command : Option String) : GuardResult :=
  let cmd := command.getD ""
  if cmd = "" then ⟨[], [], 0⟩
  else if blockedCommand cmd then ⟨[], blockedMessage, 2⟩
  else ⟨[], [], 0⟩

/-- A single-quote character, kept out of string literals. -/
def sq : Char := Char.ofNat 39

end GitGuard

namespace Assembly

/-!
Embedding of the assembly-line widget (`AssemblyLine.vue`, `<script setup>`).

Material lengths (`Math.random() * 20 + 5`) and sizes are JavaScript numbers;
they are embedded as rationals.  The five `StationState` records of the source
also carry a `name` and a `display` string used only by the template for
rendering; these presentational fields are omitted, keeping the `part` slot
(`PartInFlight | null`, embedded as `Option Part`).  The environment (the user
pressing "Add Material" and the interval timer firing `tick`) is modelled as a
list of events folded over the state.
-/

/-- Source structure `QueuedMaterial`. -/
structure QueuedMaterial where
  id : Nat
  type : String
  length : Rat
deriving Repr, DecidableEq

instance : Inhabited QueuedMaterial := ⟨⟨0, "", 0⟩⟩

/-- Source structure `PartInFlight`. -/
structure Part where
  id : Nat
  type : String
  length : Rat
  size : Rat
  serial : String
  color : String
  passed : Bool
  ticksLeft : Nat
deriving Repr, DecidableEq

/-- Output `Widget`. -/
structure Widget where
  type : String
  size : Rat
  serial : String
  color : String
  passed : Bool
deriving Repr, DecidableEq

/-- The whole mutable state of the component: the queue, the output list, the
`part` slot of each of the five stations (index 0 `Materials`, 1 `Cut`,
2 `Stamp`, 3 `Paint`, 4 `Inspect`), and the module-level counters
`serialCounter` and `nextId`. -/
structure LineState where
  materialQueue : List QueuedMaterial
  outputWidgets : List Widget
  s0 : Option Part
  s1 : Option Part
  s2 : Option Part
  s3 : Option Part
  s4 : Option Part
  serialCounter : Nat
  nextId : Nat
deriving Repr, DecidableEq

/-- The `COLORS` record lookup with its `?? 'grey'` fallback. -/
def colorOf (t : String) : String :=
  if t = "steel" then "blue"
  else if t = "aluminum" then "silver"
  else if t = "titanium" then "black"
  else "grey"

/-- Serial strings: `String(n).padStart(4, '0')` prefixed with `WDG-`: the serial string
stamped on a part. -/
def wdgSerial (n : Nat) : String :=
  let s := toString n
  "WDG-" ++ String.mk (List.replicate (4 - s.length) '0') ++ s

/-- Read the `part` slot of station `index` (the source's
`stations.value[index].part`). -/
def getPart (st : LineState) : Nat → Option Part
  | 0 => st.s0
  | 1 => st.s1
  | 2 => st.s2
  | 3 => st.s3
  | 4 => st.s4
  | _ => none

/-- Write the `part` slot of station `index`.  Indices other than 0–4 never
occur (the source would fault on them); they leave the state unchanged. -/
def setPart (st : LineState) (index : Nat) (p : Option Part) : LineState :=
  match index with
  | 0 => { st with s0 := p }
  | 1 => { st with s1 := p }
  | 2 => { st with s2 := p }
  | 3 => { st with s3 := p }
  | 4 => { st with s4 := p }
  | _ => st

/-- Source function `clearStation(index)`. -/
def clearStation (st : LineState) (index : Nat) : LineState :=
  setPart st index none

/-- Source function `enterStation(index, part)`: set `ticksLeft` to 1, apply the station's
transform (cut at 1, stamp at 2 — which also post-increments the module
counter — paint at 3, inspect at 4), and place the part in the station. -/
def enterStation (index : Nat) (st : LineState) (p : Part) : LineState :=
  let p := { p with ticksLeft := 1 }
  match index with
  | 0 => setPart st 0 (some p)
  | 1 => setPart st 1 (some { p with size := min p.length 10 })
  | 2 =>
    let st := setPart st 2 (some { p with serial := wdgSerial st.serialCounter })
    { st with serialCounter := st.serialCounter + 1 }
  | 3 => setPart st 3 (some { p with color := colorOf p.type })
  | 4 => setPart st 4 (some { p with passed := decide (p.size ≥ 8) })
  | _ => st

/-- Tick phase 1: decrement `ticksLeft` for every part with `ticksLeft > 0`. -/
def decTick (p : Part) : Part :=
  if p.ticksLeft > 0 then { p with ticksLeft := p.ticksLeft - 1 } else p

/-- Phase 1 applied to all five stations. -/
def decAll (st : LineState) : LineState :=
  { st with
    s0 := st.s0.map decTick
    s1 := st.s1.map decTick
    s2 := st.s2.map decTick
    s3 := st.s3.map decTick
    s4 := st.s4.map decTick }

/-- The fields of a finished part copied into the output `Widget`. -/
def widgetOf (p : Part) : Widget :=
  { type := p.type, size := p.size, serial := p.serial, color := p.color,
    passed := p.passed }

/-- Tick phase 2a: a done part at station 4 is pushed onto the output list and
its station cleared. -/
def outputStep (st : LineState) : LineState :=
  match st.s4 with
  | some p =>
    if p.ticksLeft = 0 then
      clearStation { st with outputWidgets := st.outputWidgets ++ [widgetOf p] } 4
    else st
  | none => st

/-- Tick phase 2b, one iteration of the `for (let i = 3; i >= 0; i--)` loop:
a done part at station `i` advances into station `i + 1` if that station is
empty. -/
def advance (i : Nat) (st : LineState) : LineState :=
  match getPart st i with
  | some p =>
    if p.ticksLeft = 0 && (getPart st (i + 1)).isNone then
      enterStation (i + 1) (clearStation st i) p
    else st
  | none => st

/-- Tick phase 3: feed the head of the material queue into station 0 if that
station is empty. -/
def feedStep (st : LineState) : LineState :=
  if (getPart st 0).isNone then
    match st.materialQueue with
    | m :: rest =>
      enterStation 0 { st with materialQueue := rest }
        { id := m.id, type := m.type, length := m.length, size := 0,
          serial := "", color := "", passed := false, ticksLeft := 0 }
    | [] => st
  else st

/-- Source function `tick()`: decrement, output from station 4, advance stations 3 → 0
right-to-left, then feed from the queue. -/
def tick (st : LineState) : LineState :=
  feedStep (advance 0 (advance 1 (advance 2 (advance 3 (outputStep (decAll st))))))

/-- Source function `addMaterial()`: push a new `QueuedMaterial` with the next id and this
material length (`Math.random() * 20 + 5` in the source, passed here as the
parameter `len`). -/
def addMaterial (ty : String) (len : Rat) (st : LineState) : LineState :=
  { st with
    materialQueue := st.materialQueue ++ [⟨st.nextId, ty, len⟩]
    nextId := st.nextId + 1 }

/-- The initial component state: empty queue and output, all stations idle,
`serialCounter = 1`, `nextId = 0`. -/
def initState : LineState :=
  { materialQueue := [], outputWidgets := [], s0 := none, s1 := none,
    s2 := none, s3 := none, s4 := none, serialCounter := 1, nextId := 0 }

/-- An environment event: one timer tick, or one click of "Add Material" with
the selected material type and the drawn random length. -/
inductive Event where
  | tick : Event
  | add (ty : String) (len : Rat) : Event
deriving Repr, DecidableEq

/-- Apply one event to the state. -/
def applyEvent (st : LineState) : Event → LineState
  | .tick => tick st
  | .add ty len => addMaterial ty len st

/-- The state reached from the initial state after a list of events. -/
def run (events : List Event) : LineState :=
  events.foldl applyEvent initState

/-- The materials enqueued by a list of events, with the ids `addMaterial`
assigns them when the count of earlier additions is `n`. -/
def matsOfAux (n : Nat) : List Event → List QueuedMaterial
  | [] => []
  | .tick :: es => matsOfAux n es
  | .add ty len :: es => ⟨n, ty, len⟩ :: matsOfAux (n + 1) es

/-- All materials enqueued by a list of events, in order. -/
def matsOf (events : List Event) : List QueuedMaterial :=
  matsOfAux 0 events

/-- The fields a part made from material `m` has while it sits in station
`stage`, given that the serial it was (or will be) stamped with is
`wdgSerial serialIdx` and that `stage`'s processing has `tl` ticks left:
`size` is set on entering station 1, `serial` on entering station 2, `color`
on entering station 3 and `passed` on entering station 4. -/
def stagePart (m : QueuedMaterial) (stage serialIdx tl : Nat) : Part :=
  { id := m.id, type := m.type, length := m.length,
    size := if 1 ≤ stage then min m.length 10 else 0,
    serial := if 2 ≤ stage then wdgSerial serialIdx else "",
    color := if 3 ≤ stage then colorOf m.type else "",
    passed := if 4 ≤ stage then decide (min m.length 10 ≥ 8) else false,
    ticksLeft := tl }

/-- The widget the pipeline produces from material `m` when the serial
counter read at the stamp station was `serialIdx`. -/
def expectedWidget (m : QueuedMaterial) (serialIdx : Nat) : Widget :=
  { type := m.type, size := min m.length 10, serial := wdgSerial serialIdx,
    color := colorOf m.type, passed := decide (min m.length 10 ≥ 8) }

/-- The closed form of every reachable state: the materials ever enqueued are
`mats`; the first `k` of them have come off the line as widgets; the occupied
stations, read from Inspect down to Materials, hold the next materials in
order (`o4 … o0` say which stations are occupied); the remaining materials
are still queued.  Every in-flight part has one tick of processing left. -/
def specState (mats : List QueuedMaterial) (k : Nat) (o4 o3 o2 o1 o0 : Bool) :
    LineState :=
  let i4 := k
  let i3 := i4 + cond o4 1 0
  let i2 := i3 + cond o3 1 0
  let i1 := i2 + cond o2 1 0
  let i0 := i1 + cond o1 1 0
  let iq := i0 + cond o0 1 0
  { materialQueue := mats.drop iq,
    outputWidgets :=
      (List.range k).map fun j => expectedWidget (mats.getD j default) (j + 1),
    s0 := if o0 then some (stagePart (mats.getD i0 default) 0 0 1) else none,
    s1 := if o1 then some (stagePart (mats.getD i1 default) 1 0 1) else none,
    s2 := if o2 then some (stagePart (mats.getD i2 default) 2 (i2 + 1) 1) else none,
    s3 := if o3 then some (stagePart (mats.getD i3 default) 3 (i3 + 1) 1) else none,
    s4 := if o4 then some (stagePart (mats.getD i4 default) 4 (i4 + 1) 1) else none,
    serialCounter := i1 + 1,
    nextId := mats.length }

/-- A concrete trace for the C4 witness: a steel material of length 9 fed
through the whole line. -/
def c4Trace : List Event :=
  [.add "steel" 9, .tick, .tick, .tick, .tick, .tick, .tick]

/-- A concrete trace for the C3 witness: five materials added, then five
ticks, leaving every station occupied. -/
def c3Trace : List Event :=
  [.add "steel" 9, .add "aluminum" 7, .add "titanium" 9, .add "wood" 12,
   .add "steel" 3, .tick, .tick, .tick, .tick, .tick]

end Assembly

namespace Posts

/-!
Embedding of the frontmatter pipeline:

* `getAllPosts` / `generateSidebar` from `.vitepress/generateSidebar.js`,
  which reads the markdown directory itself (modelled as a list of named
  files) and parses frontmatter with the two regexes given at
  `extractFrontmatter` and `matchKV`;
* the `posts.data.js` content-loader `transform`, which receives
  VitePress-loaded pages (modelled as `PageData`).

JavaScript `Date` parsing and `Array.prototype.sort` are modelled by
`dateVal` and `sortBy` below, with their conventions documented there.
-/

/-- A markdown file of the posts directory: its basename and contents. -/
structure MdFile where
  name : String
  content : String
deriving Repr, DecidableEq

/-- An entry of the post listing built by `getAllPosts`. -/
structure Post where
  title : String
  date : String
  url : String
deriving Repr, DecidableEq

/-- A page as delivered by the VitePress content loader to a `transform`
callback: its site URL, parsed frontmatter, and rendered HTML when
requested. -/
structure PageData where
  url : String
  frontmatter : List (String × String)
  html : Option String
deriving Repr, DecidableEq

/-- Split a character sequence at every occurrence of `sep`
(JavaScript `String.prototype.split` with a single-character separator). -/
def splitOnChar (sep : Char) : List Char → List (List Char)
  | [] => [[]]
  | c :: cs =>
    if c = sep then [] :: splitOnChar sep cs
    else
      match splitOnChar sep cs with
      | l :: ls => (c :: l) :: ls
      | [] => [[c]]

/-- First index at which `pat` occurs in `s` (leftmost match). -/
def firstIdxOf (pat s : List Char) : Option Nat :=
  (List.range (s.length + 1)).find? fun i => GitGuard.sublistAt pat s i

/-- The regex match `content.match(^--- newline (lazy any)* newline ---)` of
`getAllPosts`: the content must start with `---` and a newline, and the lazy
(hence shortest) frontmatter body runs to the next newline-`---`. -/
def extractFrontmatter (content : List Char) : Option (List Char) :=
  if content.take 4 = "---\n".data then
    let rest := content.drop 4
    match firstIdxOf "\n---".data rest with
    | some i => some (rest.take i)
    | none => none
  else none

/-- One line matched against `/^(\w+):\s*"?([^"]*)"?$/`: a nonempty `\w+`
key, a colon, optional whitespace, and a value wrapped in at most one leading
and one trailing quote; a line whose remaining value still contains a quote
does not match.  (`\s` is modelled by `Char.isWhitespace`.) -/
def matchKV (line : List Char) : Option (String × String) :=
  let key := line.takeWhile GitGuard.isWordChar
  if key.isEmpty then none
  else
    match line.drop key.length with
    | ':' :: rest =>
      let v := rest.dropWhile Char.isWhitespace
      let v1 := match v with
        | '"' :: t => t
        | _ => v
      let v2 := if v1.getLast? = some '"' then v1.dropLast else v1
      if v2.contains '"' then none else some (String.mk key, String.mk v2)
    | _ => none

/-- The simple frontmatter parser: each line of the body matched against the
key/value regex; non-matching lines are skipped. -/
def parseFrontmatterPairs (body : List Char) : List (String × String) :=
  (GitGuard.splitLines body).filterMap matchKV

/-- Lookup of a frontmatter key: JavaScript object assignment means the last
binding of a repeated key wins. -/
def fmGet (pairs : List (String × String)) (k : String) : Option String :=
  pairs.reverse.lookup k

/-- Implementation of `s.endsWith(pat)` on character lists (a string ends with `pat`
iff its reversal starts with `pat`'s reversal). -/
def strEndsWith (s pat : String) : Bool :=
  decide (s.data.reverse.take pat.data.length = pat.data.reverse)

/-- JavaScript truthiness of an optional string field: `undefined` and the
empty string are falsy. -/
def truthy (o : Option String) : Bool :=
  match o with
  | some s => decide (s ≠ "")
  | none => false

/-- JavaScript `replace` with a string pattern replaces only the first
occurrence; this models `file.replace('.md', '')`. -/
def replaceFirst (pat repl s : List Char) : List Char :=
  match firstIdxOf pat s with
  | some i => s.take i ++ repl ++ s.drop (i + pat.length)
  | none => s

/-- The sidebar generator's in-loop denylist. -/
def excludeFilesSidebar : List String :=
  ["index.md", "about.md", "archive.md", "work-with-me.md", "resume.md",
   "markdown-examples.md", "api-examples.md"]

/-- Processing of one directory entry by `getAllPosts`: keep `.md` files that
are not denylisted, have a frontmatter block, and have truthy `date` and
`title` fields. -/
def processFile (f : MdFile) : Option Post :=
  if !(strEndsWith f.name ".md") then none
  else if f.name ∈ excludeFilesSidebar then none
  else
    match extractFrontmatter f.content.data with
    | none => none
    | some body =>
      let fm := parseFrontmatterPairs body
      if truthy (fmGet fm "date") && truthy (fmGet fm "title") then
        some { title := (fmGet fm "title").getD "",
               date := (fmGet fm "date").getD "",
               url := "/" ++ String.mk (replaceFirst ".md".data [] f.name.data) }
      else none

/-- Modelled: JavaScript `new Date(s).getTime()`, restricted to the ISO forms
this repository's frontmatter uses — `YYYY-MM-DD` optionally followed by
`THH:MM:SS` or `THH:MM:SS.mmm` and a literal `Z`.  Any other string is out of
scope of this embedding and is mapped to `none`, standing for `NaN`.  The
returned integer is order-isomorphic (not equal) to the millisecond
timestamp, which is all the sort comparators below observe. -/
def dateVal (s : String) : Option Int := do
  let cs := s.data
  let datePart := cs.takeWhile (· ≠ 'T')
  let timePart := cs.drop datePart.length
  let toNum : List Char → Option Nat := fun ds =>
    if ds.isEmpty || !ds.all Char.isDigit then none
    else some (ds.foldl (fun a c => a * 10 + (c.toNat - 48)) 0)
  match splitOnChar '-' datePart with
  | [ys, ms, ds] =>
    if ys.length = 4 && ms.length = 2 && ds.length = 2 then do
      let y ← toNum ys
      let mo ← toNum ms
      let d ← toNum ds
      if 1 ≤ mo && mo ≤ 12 && 1 ≤ d && d ≤ 31 then do
        let (h, mi, se, ms') ←
          match timePart with
          | [] => some (0, 0, 0, 0)
          | 'T' :: rest =>
            if rest.getLast? = some 'Z' then
              match splitOnChar ':' rest.dropLast with
              | [hs, mins, secs] => do
                let h ← toNum hs
                let mi ← toNum mins
                let (se, ms') ←
                  match splitOnChar '.' secs with
                  | [ss] => do
                    let se ← toNum ss
                    if ss.length = 2 then some (se, 0) else none
                  | [ss, mss] => do
                    let se ← toNum ss
                    let ms' ← toNum mss
                    if ss.length = 2 && mss.length = 3 then some (se, ms')
                    else none
                  | _ => none
                if hs.length = 2 && mins.length = 2 &&
                    h ≤ 23 && mi ≤ 59 && se ≤ 59 then
                  some (h, mi, se, ms')
                else none
              | _ => none
            else none
          | _ => none
        pure (((((((y * 13 + mo) * 32 + d) * 24 + h) * 60 + mi) * 60 + se)
          * 1000 + ms' : Nat) : Int)
      else none
    else none
  | _ => none

/-- Models `Array.prototype.sort(comparefn)`, inserting `x` into an already
arranged list: `le x y` says `comparefn(x, y) ≤ 0`, so `x` may sit before
`y`. -/
def orderedInsert (le : α → α → Bool) (x : α) : List α → List α
  | [] => [x]
  | y :: ys => if le x y then x :: y :: ys else y :: orderedInsert le x ys

/-- Models `Array.prototype.sort(comparefn)`.  ECMA-262 requires a stable
sort whose output is fully determined whenever `comparefn` is a consistent
comparator; this stable insertion sort realizes that contract (for
inconsistent comparators, such as `Date` subtraction over unparsable dates,
the JavaScript result is implementation-defined). -/
def sortBy (le : α → α → Bool) : List α → List α
  | [] => []
  | x :: xs => orderedInsert le x (sortBy le xs)

/-- The comparator `(a, b) => new Date(b) - new Date(a)` interpreted as "may
`a` be placed before `b`": true iff the comparator value is `≤ 0`, where a
`NaN` (unparsable date on either side) compares as `0`. -/
def dateCmpLe (da db : String) : Bool :=
  match dateVal da, dateVal db with
  | some x, some y => decide (y ≤ x)
  | _, _ => true

/-- Source function `getAllPosts()`: read the directory, keep well-formed posts, sort by
frontmatter date descending. -/
def getAllPosts (files : List MdFile) : List Post :=
  sortBy (fun a b => dateCmpLe a.date b.date) (files.filterMap processFile)

/-- One sidebar link. -/
structure SidebarItem where
  text : String
  link : String
deriving Repr, DecidableEq

/-- One sidebar group. -/
structure SidebarGroup where
  text : String
  items : List SidebarItem
deriving Repr, DecidableEq

/-- Source function `generateSidebar()`: all posts in a single "Posts" group. -/
def generateSidebar (files : List MdFile) : List SidebarGroup :=
  [⟨"Posts", (getAllPosts files).map fun p => ⟨p.title, p.url⟩⟩]

/-- The frontmatter `date` string of a loaded page (`undefined`, i.e. `NaN`
under `dateVal`, when absent). -/
def dateOfPage (p : PageData) : String :=
  (fmGet p.frontmatter "date").getD ""

/-- The `posts.data.js` denylist. -/
def excludePagesData : List String :=
  ["index.md", "about.md", "archive.md", "work-with-me.md", "resume.md"]

/-- The filename reconstruction `page.url.split("/").pop() + ".md"`. -/
def filenameOf (url : String) : String :=
  (match (splitOnChar '/' url.data).getLast? with
   | some seg => String.mk seg
   | none => "") ++ ".md"

/-- The `posts.data.js` filter: reconstructed filename not on the denylist
and truthy frontmatter date. -/
def keepPost (page : PageData) : Bool :=
  !(excludePagesData.contains (filenameOf page.url)) &&
    truthy (fmGet page.frontmatter "date")

/-- The `posts.data.js` `transform`: filter, then sort by frontmatter date
descending. -/
def postsDataTransform (pages : List PageData) : List PageData :=
  sortBy (fun a b => dateCmpLe (dateOfPage a) (dateOfPage b))
    (pages.filter keepPost)

/-- Modelled: the URL VitePress `createContentLoader` assigns to a markdown
source file under this site's configuration (`cleanUrls` is not set in either
site config, so it defaults to `false`): `index.md` maps to `/`, any other
`name.md` maps to `/name.html`.  The repository's own `rss.mjs` strips
exactly this `.html` suffix before comparing URLs against its excluded-path
list. -/
def loaderUrl (name : String) : String :=
  if name = "index.md" then "/"
  else if strEndsWith name ".md" then
    "/" ++ String.mk (name.data.take (name.data.length - 3)) ++ ".html"
  else "/" ++ name

/-- The integer a frontmatter date sorts by, defaulting (for out-of-scope
strings) to 0; the sortedness theorems below only use it on dates `dateVal`
accepts. -/
def dateValD (s : String) : Int := (dateVal s).getD 0

/-- Concrete files for the C5 witness. -/
def c5Files : List MdFile :=
  [⟨"b.md", "---\ndate: \"2023-01-01\"\ntitle: B\n---\nx"⟩,
   ⟨"a.md", "---\ndate: \"2024-06-05T10:00:00.000Z\"\ntitle: A\n---\nx"⟩]

/-- Concrete pages for the C5 witness. -/
def c5Pages : List PageData :=
  [⟨"/b.html", [("title", "B"), ("date", "2023-01-01")], none⟩,
   ⟨"/a.html", [("title", "A"), ("date", "2024-06-05T10:00:00.000Z")], none⟩]

/-- The parsed frontmatter of a file's contents, when a frontmatter block is
present at all. -/
def frontmatterOf (content : String) : Option (List (String × String)) :=
  (extractFrontmatter content.data).map parseFrontmatterPairs

end Posts

namespace Rss

/-!
Embedding of `genFeed` from `rss.mjs`: a content loader collects pages,
its `transform` filters out excluded paths and dateless pages and sorts by
frontmatter date descending, and the `for` loop then adds exactly one feed
item per remaining page, in that order.  The `Feed` library object is
modelled by the list of items passed to `addItem`.
-/

/-- The site base URL. -/
def siteUrl : String := "https://steve-adams.me"

/-- The excluded-path list of `genFeed`. -/
def excludePagesFeed : List String :=
  ["/", "/about", "/archive", "/work-with-me", "/resume"]

/-- The URL normalization `page.url.replace(\.html anchored at the end, "")`. -/
def stripHtmlSuffix (u : String) : String :=
  if Posts.strEndsWith u ".html" then
    String.mk (u.data.take (u.data.length - 5))
  else u

/-- The `transform` filter of `genFeed`: URL (with `.html` stripped) not on
the excluded list, and truthy frontmatter date. -/
def keepFeed (p : Posts.PageData) : Bool :=
  !(excludePagesFeed.contains (stripHtmlSuffix p.url)) &&
    Posts.truthy (Posts.fmGet p.frontmatter "date")

/-- One feed item as passed to `feed.addItem` (the `Date` argument is kept as
its source string). -/
structure FeedItem where
  title : String
  id : String
  link : String
  description : String
  date : String
deriving Repr, DecidableEq

/-- The `addItem` argument built from a page. -/
def itemOf (p : Posts.PageData) : FeedItem :=
  { title := (Posts.fmGet p.frontmatter "title").getD "",
    id := siteUrl ++ p.url,
    link := siteUrl ++ p.url,
    description := p.html.getD "",
    date := Posts.dateOfPage p }

/-- The sequence of items `genFeed` adds to `feed.xml`: the loaded pages,
filtered, sorted by frontmatter date descending, one item each. -/
def genFeedItems (pages : List Posts.PageData) : List FeedItem :=
  (Posts.sortBy
      (fun a b => Posts.dateCmpLe (Posts.dateOfPage a) (Posts.dateOfPage b))
      (pages.filter keepFeed)).map itemOf

/-- Concrete pages for the C8 witness. -/
def c8Pages : List Posts.PageData :=
  [⟨"/b.html", [("title", "B"), ("date", "2023-01-01")], some "<p>b</p>"⟩,
   ⟨"/a.html", [("title", "A"), ("date", "2024-06-05T10:00:00.000Z")],
     some "<p>a</p>"⟩]

end Rss

namespace GitGuard

/-- C1.  For every invocation of the guard script on a JSON object with a
`tool_input.command` string field: if the command matches
`\bgit\b.*\b(commit|push)\b` or `\bgit\b.*\breset\b.*--hard\b` the script
writes exactly the two diagnostic lines to standard error and exits with
status 2; if it matches neither, the script writes nothing and exits with
status 0. -/
theorem guard_decision (cmd : String) :
    (blockedCommand cmd = true → gitGuard (some cmd) = ⟨[], blockedMessage, 2⟩) ∧
    (blockedCommand cmd = false → gitGuard (some cmd) = ⟨[], [], 0⟩) := by
  constructor
  · intro h
    have hne : cmd ≠ "" := by
      intro he
      rw [he] at h
      exact absurd h (by decide)
    simp [gitGuard, hne, h]
  · intro h
    by_cases he : cmd = ""
    · simp [gitGuard, he]
    · simp [gitGuard, he, h]

/-- Witness for C1 at concrete inputs: `git push origin main` is blocked and
`ls -la` is allowed. -/
theorem guard_decision_witness :
    gitGuard (some "git push origin main") = ⟨[], blockedMessage, 2⟩ ∧
      gitGuard (some "ls -la") = ⟨[], [], 0⟩ :=
  ⟨(guard_decision "git push origin main").1 (by decide),
   (guard_decision "ls -la").2 (by decide)⟩

/-- C2.  The guard's decisions on the spec's literal test inputs:
`git commit -m 'x'` and `git -C /path commit` are blocked with exit status 2;
`git status` and `grep -r 'commit' src/` are allowed with exit status 0. -/
theorem guard_literal_tests :
    (gitGuard (some ("git commit -m " ++ String.mk [sq, 'x', sq]))).exitCode = 2 ∧
    (gitGuard (some "git -C /path commit")).exitCode = 2 ∧
    (gitGuard (some "git status")).exitCode = 0 ∧
    (gitGuard (some ("grep -r " ++ String.mk [sq] ++ "commit" ++
      String.mk [sq] ++ " src/"))).exitCode = 0 := by
  refine ⟨by decide, by decide, by decide, by decide⟩

/-- C9.  If `tool_input.command` is absent, `null`, or the empty string,
the guard writes nothing to standard output or standard error and exits with
status 0 (the command is allowed). -/
theorem guard_empty_command :
    gitGuard none = ⟨[], [], 0⟩ ∧ gitGuard (some "") = ⟨[], [], 0⟩ :=
  ⟨rfl, rfl⟩

end GitGuard

namespace Assembly

theorem cascade_specState (mats : List QueuedMaterial) (k : Nat)
    (o4 o3 o2 o1 o0 : Bool) :
    advance 0 (advance 1 (advance 2 (advance 3
        (outputStep (decAll (specState mats k o4 o3 o2 o1 o0)))))) =
      specState mats (k + cond o4 1 0) o3 o2 o1 o0 false := by
  cases o4 <;> cases o3 <;> cases o2 <;> cases o1 <;> cases o0 <;>
    simp +arith [specState, decAll, outputStep, advance, enterStation, setPart,
      clearStation, getPart, decTick, stagePart, widgetOf, expectedWidget,
      List.range_succ]

theorem feed_specState (mats : List QueuedMaterial) (k : Nat) (o4 o3 o2 o1 : Bool) :
    feedStep (specState mats k o4 o3 o2 o1 false) =
      specState mats k o4 o3 o2 o1
        (decide (k + cond o4 1 0 + cond o3 1 0 + cond o2 1 0 + cond o1 1 0 <
          mats.length)) := by
  by_cases hlt :
      k + cond o4 1 0 + cond o3 1 0 + cond o2 1 0 + cond o1 1 0 < mats.length
  · have hdrop := List.drop_eq_getElem_cons hlt (l := mats)
    simp only [specState, feedStep, getPart, cond_false, Nat.add_zero,
      Option.isNone_none, if_true, hdrop]
    simp [enterStation, setPart, stagePart, hlt, List.getD_eq_getElem mats default hlt]
  · have hdrop := List.drop_eq_nil_of_le (Nat.le_of_not_lt hlt)
    simp only [specState, feedStep, getPart, cond_false, Nat.add_zero,
      Option.isNone_none, if_true, hdrop]
    simp [decide_eq_false hlt]
    exact Nat.le_of_not_lt hlt

theorem tick_specState (mats : List QueuedMaterial) (k : Nat)
    (o4 o3 o2 o1 o0 : Bool) :
    tick (specState mats k o4 o3 o2 o1 o0) =
      specState mats (k + cond o4 1 0) o3 o2 o1 o0
        (decide (k + cond o4 1 0 + cond o3 1 0 + cond o2 1 0 + cond o1 1 0 +
          cond o0 1 0 < mats.length)) := by
  unfold tick
  rw [cascade_specState, feed_specState]

theorem addMaterial_specState (mats : List QueuedMaterial) (k : Nat)
    (o4 o3 o2 o1 o0 : Bool) (ty : String) (len : Rat)
    (h : k + cond o4 1 0 + cond o3 1 0 + cond o2 1 0 + cond o1 1 0 +
      cond o0 1 0 ≤ mats.length) :
    addMaterial ty len (specState mats k o4 o3 o2 o1 o0) =
      specState (mats ++ [(⟨mats.length, ty, len⟩ : QueuedMaterial)]) k o4 o3 o2 o1 o0 := by
  cases o4 <;> cases o3 <;> cases o2 <;> cases o1 <;> cases o0 <;>
    simp +arith only [cond_true, cond_false, Nat.add_zero] at h <;>
    simp +arith [specState, addMaterial, List.drop_append_of_le_length,
      List.getD_append, h] <;>
    and_intros <;> (try intro a ha) <;>
    first
    | rfl
    | (congr 1 <;> rw [List.getElem?_append_left (by omega)] <;>
        (try (rw [List.getElem?_eq_getElem (by omega)]; simp)))

theorem initState_specState :
    initState = specState [] 0 false false false false false := rfl

theorem foldl_specState (t : List Event) :
    ∀ (mats : List QueuedMaterial) (k : Nat) (o4 o3 o2 o1 o0 : Bool),
      k + cond o4 1 0 + cond o3 1 0 + cond o2 1 0 + cond o1 1 0 + cond o0 1 0 ≤
        mats.length →
      ∃ (k' : Nat) (p4 p3 p2 p1 p0 : Bool),
        k' + cond p4 1 0 + cond p3 1 0 + cond p2 1 0 + cond p1 1 0 +
            cond p0 1 0 ≤ (mats ++ matsOfAux mats.length t).length ∧
          List.foldl applyEvent (specState mats k o4 o3 o2 o1 o0) t =
            specState (mats ++ matsOfAux mats.length t) k' p4 p3 p2 p1 p0 := by
  induction t with
  | nil =>
    intro mats k o4 o3 o2 o1 o0 h
    exact ⟨k, o4, o3, o2, o1, o0, by simpa [matsOfAux] using h,
      by simp [matsOfAux]⟩
  | cons e es ih =>
    intro mats k o4 o3 o2 o1 o0 h
    cases e with
    | tick =>
      have h' : k + cond o4 1 0 + cond o3 1 0 + cond o2 1 0 + cond o1 1 0 +
          cond o0 1 0 +
          cond (decide (k + cond o4 1 0 + cond o3 1 0 + cond o2 1 0 +
            cond o1 1 0 + cond o0 1 0 < mats.length)) 1 0 ≤ mats.length := by
        by_cases hlt : k + cond o4 1 0 + cond o3 1 0 + cond o2 1 0 +
            cond o1 1 0 + cond o0 1 0 < mats.length
        · simp only [decide_eq_true hlt, cond_true]
          omega
        · simp only [decide_eq_false hlt, cond_false]
          omega
      obtain ⟨k', p4, p3, p2, p1, p0, hle, heq⟩ :=
        ih mats (k + cond o4 1 0) o3 o2 o1 o0
          (decide (k + cond o4 1 0 + cond o3 1 0 + cond o2 1 0 + cond o1 1 0 +
            cond o0 1 0 < mats.length)) (by omega)
      refine ⟨k', p4, p3, p2, p1, p0, by simpa [matsOfAux] using hle, ?_⟩
      calc List.foldl applyEvent (specState mats k o4 o3 o2 o1 o0)
              (Event.tick :: es)
          = List.foldl applyEvent (tick (specState mats k o4 o3 o2 o1 o0)) es := by
            simp [applyEvent]
        _ = specState (mats ++ matsOfAux mats.length (Event.tick :: es)) k'
              p4 p3 p2 p1 p0 := by
            rw [tick_specState, heq]
            simp [matsOfAux]
    | add ty len =>
      have h2 : k + cond o4 1 0 + cond o3 1 0 + cond o2 1 0 + cond o1 1 0 +
          cond o0 1 0 ≤ (mats ++ [(⟨mats.length, ty, len⟩ : QueuedMaterial)]).length := by
        simp only [List.length_append, List.length_cons, List.length_nil]
        omega
      obtain ⟨k', p4, p3, p2, p1, p0, hle, heq⟩ :=
        ih (mats ++ [(⟨mats.length, ty, len⟩ : QueuedMaterial)]) k o4 o3 o2 o1 o0 h2
      refine ⟨k', p4, p3, p2, p1, p0, ?_, ?_⟩
      · simpa [matsOfAux, List.append_assoc] using hle
      · calc List.foldl applyEvent (specState mats k o4 o3 o2 o1 o0)
                (Event.add ty len :: es)
            = List.foldl applyEvent
                (addMaterial ty len (specState mats k o4 o3 o2 o1 o0)) es := by
              simp [applyEvent]
          _ = specState (mats ++ matsOfAux mats.length (Event.add ty len :: es))
                k' p4 p3 p2 p1 p0 := by
              rw [addMaterial_specState mats k o4 o3 o2 o1 o0 ty len h, heq]
              simp [matsOfAux, List.append_assoc]

/-- Every reachable state of the widget — the state after any sequence of
"Add Material" clicks and timer ticks — is of the closed `specState` form:
`k` widgets output, the occupied stations holding the next materials in
order, the rest still queued. -/
theorem run_specState (t : List Event) :
    ∃ (k : Nat) (p4 p3 p2 p1 p0 : Bool),
      k + cond p4 1 0 + cond p3 1 0 + cond p2 1 0 + cond p1 1 0 +
          cond p0 1 0 ≤ (matsOf t).length ∧
        run t = specState (matsOf t) k p4 p3 p2 p1 p0 := by
  have hmain := foldl_specState t [] 0 false false false false false (by simp)
  simpa [run, matsOf, initState_specState] using hmain

/-- C10.  The pipeline is first-in-first-out: in every run, the output
list is exactly the widgets of the first `k` enqueued materials, in the order
the materials were added, and their serials are `WDG`-numbers `1, 2, …, k` —
strictly increasing across successive output entries. -/
theorem output_fifo (t : List Event) :
    ∃ k : Nat, k ≤ (matsOf t).length ∧
      (run t).outputWidgets =
        (List.range k).map
          (fun j => expectedWidget ((matsOf t).getD j default) (j + 1)) ∧
      (run t).outputWidgets.map Widget.serial =
        (List.range k).map (fun j => wdgSerial (j + 1)) := by
  obtain ⟨k, p4, p3, p2, p1, p0, hle, heq⟩ := run_specState t
  refine ⟨k, by omega, ?_, ?_⟩
  · rw [heq]
    simp [specState]
  · rw [heq]
    simp [specState, expectedWidget, Function.comp_def]

/-- C4.  Every widget appended to the output list is the deterministic
image of its queued material: its `size` is `min(length, 10)` (Cut), its
`color` is the `COLORS` image of its material type with fallback `grey`
(Paint) — `blue` for steel, `silver` for aluminum, `black` for titanium —
and its `passed` flag is `size ≥ 8` (Inspect). -/
theorem output_transforms :
    (∀ (t : List Event) (w : Widget), w ∈ (run t).outputWidgets →
      ∃ j : Nat, j < (matsOf t).length ∧
        w = expectedWidget ((matsOf t).getD j default) (j + 1) ∧
        w.size = min ((matsOf t).getD j default).length 10 ∧
        w.color = colorOf ((matsOf t).getD j default).type ∧
        w.passed = decide (w.size ≥ 8)) ∧
    colorOf "steel" = "blue" ∧ colorOf "aluminum" = "silver" ∧
    colorOf "titanium" = "black" ∧
    (∀ ty : String, ty ≠ "steel" → ty ≠ "aluminum" → ty ≠ "titanium" →
      colorOf ty = "grey") := by
  refine ⟨?_, rfl, rfl, rfl, ?_⟩
  · intro t w hw
    obtain ⟨k, p4, p3, p2, p1, p0, hle, heq⟩ := run_specState t
    rw [heq] at hw
    simp only [specState, List.mem_map, List.mem_range] at hw
    obtain ⟨j, hj, hwe⟩ := hw
    subst hwe
    exact ⟨j, by omega, rfl, rfl, rfl, rfl⟩
  · intro ty h1 h2 h3
    simp [colorOf, h1, h2, h3]

/-- Witness for C4: the single output widget of `c4Trace` is the expected
image of its material. -/
theorem output_transforms_witness :
    ∃ j : Nat, j < (matsOf c4Trace).length ∧
      (⟨"steel", 9, "WDG-0001", "blue", true⟩ : Widget) =
        expectedWidget ((matsOf c4Trace).getD j default) (j + 1) ∧
      (⟨"steel", 9, "WDG-0001", "blue", true⟩ : Widget).size =
        min ((matsOf c4Trace).getD j default).length 10 ∧
      (⟨"steel", 9, "WDG-0001", "blue", true⟩ : Widget).color =
        colorOf ((matsOf c4Trace).getD j default).type ∧
      (⟨"steel", 9, "WDG-0001", "blue", true⟩ : Widget).passed =
        decide ((⟨"steel", 9, "WDG-0001", "blue", true⟩ : Widget).size ≥ 8) :=
  output_transforms.1 c4Trace ⟨"steel", 9, "WDG-0001", "blue", true⟩ (by decide)

/-- C3.  In every reachable state: each of the five stations holds at most
one in-flight part (its `part` slot is a single `Option`), and one `tick`
moves every occupying part exactly one stage along — the part at station `i`
(identified by its `id`) is at station `i + 1` after the tick, and the part
at the Inspect station is appended to the output list. -/
theorem stations_advance_one_stage (t : List Event) :
    (∀ i : Nat, (getPart (run t) i).toList.length ≤ 1) ∧
    (∀ p : Part, (run t).s0 = some p →
      ∃ p' : Part, (tick (run t)).s1 = some p' ∧ p'.id = p.id) ∧
    (∀ p : Part, (run t).s1 = some p →
      ∃ p' : Part, (tick (run t)).s2 = some p' ∧ p'.id = p.id) ∧
    (∀ p : Part, (run t).s2 = some p →
      ∃ p' : Part, (tick (run t)).s3 = some p' ∧ p'.id = p.id) ∧
    (∀ p : Part, (run t).s3 = some p →
      ∃ p' : Part, (tick (run t)).s4 = some p' ∧ p'.id = p.id) ∧
    (∀ p : Part, (run t).s4 = some p →
      (tick (run t)).outputWidgets = (run t).outputWidgets ++ [widgetOf p]) := by
  obtain ⟨k, p4, p3, p2, p1, p0, hle, heq⟩ := run_specState t
  rw [heq, tick_specState]
  refine ⟨?_, ?_, ?_, ?_, ?_, ?_⟩
  · intro i
    match i, (getPart (specState (matsOf t) k p4 p3 p2 p1 p0) i) with
    | _, none => simp
    | _, some p => simp
  · intro p hp
    cases p0 <;> simp [specState] at hp ⊢
    rw [← hp]
    simp [stagePart]
  · intro p hp
    cases p1 <;> simp [specState] at hp ⊢
    rw [← hp]
    simp [stagePart]
  · intro p hp
    cases p2 <;> simp [specState] at hp ⊢
    rw [← hp]
    simp [stagePart]
  · intro p hp
    cases p3 <;> simp [specState] at hp ⊢
    rw [← hp]
    simp [stagePart]
  · intro p hp
    cases p4 <;> simp [specState] at hp ⊢
    rw [← hp]
    simp [List.range_succ, stagePart, widgetOf, expectedWidget]

/-- Witness for C3: in the state reached by `c3Trace` every station is
occupied, and the next tick moves each part one station along and sends the
Inspect part to the output list. -/
theorem stations_advance_one_stage_witness :
    (∃ p' : Part, (tick (run c3Trace)).s1 = some p' ∧ p'.id = 4) ∧
    (∃ p' : Part, (tick (run c3Trace)).s2 = some p' ∧ p'.id = 3) ∧
    (∃ p' : Part, (tick (run c3Trace)).s3 = some p' ∧ p'.id = 2) ∧
    (∃ p' : Part, (tick (run c3Trace)).s4 = some p' ∧ p'.id = 1) ∧
    (tick (run c3Trace)).outputWidgets =
      (run c3Trace).outputWidgets ++
        [widgetOf ⟨0, "steel", 9, 9, "WDG-0001", "blue", true, 1⟩] :=
  ⟨(stations_advance_one_stage c3Trace).2.1
      ⟨4, "steel", 3, 0, "", "", false, 1⟩ (by decide),
   (stations_advance_one_stage c3Trace).2.2.1
      ⟨3, "wood", 12, 10, "", "", false, 1⟩ (by decide),
   (stations_advance_one_stage c3Trace).2.2.2.1
      ⟨2, "titanium", 9, 9, "WDG-0003", "", false, 1⟩ (by decide),
   (stations_advance_one_stage c3Trace).2.2.2.2.1
      ⟨1, "aluminum", 7, 7, "WDG-0002", "silver", false, 1⟩ (by decide),
   (stations_advance_one_stage c3Trace).2.2.2.2.2
      ⟨0, "steel", 9, 9, "WDG-0001", "blue", true, 1⟩ (by decide)⟩

end Assembly

namespace Posts

theorem perm_orderedInsert (le : α → α → Bool) (x : α) (l : List α) :
    List.Perm (orderedInsert le x l) (x :: l) := by
  induction l with
  | nil => exact List.Perm.refl _
  | cons y ys ih =>
    by_cases h : le x y
    · simp [orderedInsert, h]
    · simp only [orderedInsert, h, Bool.false_eq_true, if_false]
      exact (ih.cons y).trans (List.Perm.swap x y ys)

theorem perm_sortBy (le : α → α → Bool) (l : List α) :
    List.Perm (sortBy le l) l := by
  induction l with
  | nil => exact List.Perm.refl _
  | cons x xs ih => exact (perm_orderedInsert le x (sortBy le xs)).trans (ih.cons x)

theorem mem_sortBy (le : α → α → Bool) (l : List α) (a : α) :
    a ∈ sortBy le l ↔ a ∈ l :=
  (perm_sortBy le l).mem_iff

theorem pairwise_orderedInsert (le : α → α → Bool) (x : α) (l : List α)
    (hl : l.Pairwise (fun a b => le a b = true))
    (htot : ∀ b ∈ l, le x b = true ∨ le b x = true)
    (htrans : ∀ b ∈ l, ∀ c ∈ l, le x b = true → le b c = true →
      le x c = true) :
    (orderedInsert le x l).Pairwise (fun a b => le a b = true) := by
  induction l with
  | nil => simp [orderedInsert]
  | cons y ys ih =>
    rcases List.pairwise_cons.mp hl with ⟨hy, hys⟩
    by_cases h : le x y
    · simp only [orderedInsert, h, if_true]
      refine List.pairwise_cons.mpr ⟨?_, hl⟩
      intro z hz
      rcases hz with _ | hz
      · exact h
      · exact htrans y (by simp) z (List.mem_cons.mpr (Or.inr (by assumption))) h
          (hy z (by assumption))
    · simp only [orderedInsert, h, Bool.false_eq_true, if_false]
      refine List.pairwise_cons.mpr ⟨?_, ?_⟩
      · intro z hz
        rcases List.mem_cons.mp ((perm_orderedInsert le x ys).mem_iff.mp hz) with
          rfl | hz
        · rcases htot y (by simp) with hxy | hyx
          · exact absurd hxy h
          · exact hyx
        · exact hy z hz
      · exact ih hys (fun b hb => htot b (by simp [hb]))
          (fun b hb c hc => htrans b (by simp [hb]) c (by simp [hc]))

theorem pairwise_sortBy (le : α → α → Bool) (l : List α)
    (htot : ∀ a ∈ l, ∀ b ∈ l, le a b = true ∨ le b a = true)
    (htrans : ∀ a ∈ l, ∀ b ∈ l, ∀ c ∈ l, le a b = true → le b c = true →
      le a c = true) :
    (sortBy le l).Pairwise (fun a b => le a b = true) := by
  induction l with
  | nil => simp [sortBy]
  | cons x xs ih =>
    refine pairwise_orderedInsert le x (sortBy le xs)
      (ih (fun a ha b hb => htot a (by simp [ha]) b (by simp [hb]))
        (fun a ha b hb c hc =>
          htrans a (by simp [ha]) b (by simp [hb]) c (by simp [hc])))
      ?_ ?_
    · intro b hb
      exact htot x (by simp) b (by simp [(mem_sortBy le xs b).mp hb])
    · intro b hb c hc
      exact htrans x (by simp) b (by simp [(mem_sortBy le xs b).mp hb])
        c (by simp [(mem_sortBy le xs c).mp hc])

theorem sortBy_dates_sorted {β : Type} (dOf : β → String) (l : List β)
    (hv : ∀ p ∈ l, (dateVal (dOf p)).isSome = true) :
    (sortBy (fun a b => dateCmpLe (dOf a) (dOf b)) l).Pairwise
      (fun a b => dateValD (dOf b) ≤ dateValD (dOf a)) := by
  have htot : ∀ a ∈ l, ∀ b ∈ l,
      dateCmpLe (dOf a) (dOf b) = true ∨ dateCmpLe (dOf b) (dOf a) = true := by
    intro a ha b hb
    obtain ⟨x, hx⟩ := Option.isSome_iff_exists.mp (hv a ha)
    obtain ⟨y, hy⟩ := Option.isSome_iff_exists.mp (hv b hb)
    simp only [dateCmpLe, hx, hy, decide_eq_true_eq]
    exact Int.le_total y x
  have htrans : ∀ a ∈ l, ∀ b ∈ l, ∀ c ∈ l,
      dateCmpLe (dOf a) (dOf b) = true → dateCmpLe (dOf b) (dOf c) = true →
      dateCmpLe (dOf a) (dOf c) = true := by
    intro a ha b hb c hc hab hbc
    obtain ⟨x, hx⟩ := Option.isSome_iff_exists.mp (hv a ha)
    obtain ⟨y, hy⟩ := Option.isSome_iff_exists.mp (hv b hb)
    obtain ⟨z, hz⟩ := Option.isSome_iff_exists.mp (hv c hc)
    simp only [dateCmpLe, hx, hy, hz, decide_eq_true_eq] at hab hbc ⊢
    omega
  refine (pairwise_sortBy _ l htot htrans).imp_of_mem ?_
  intro a b ha hb hab
  have ha' := hv a ((mem_sortBy _ _ _).mp ha)
  have hb' := hv b ((mem_sortBy _ _ _).mp hb)
  obtain ⟨x, hx⟩ := Option.isSome_iff_exists.mp ha'
  obtain ⟨y, hy⟩ := Option.isSome_iff_exists.mp hb'
  simp only [dateCmpLe, hx, hy, decide_eq_true_eq] at hab
  simp only [dateValD, hx, hy, Option.getD_some]
  exact hab

/-- C5.  Both post listings — `getAllPosts` (sidebar generator) and the
`posts.data.js` `transform` — are sorted by frontmatter date descending: for
any two entries at positions `i < j`, the date at `i` is not earlier than the
date at `j`.  (Stated for listings whose kept dates all parse; with an
unparsable date the comparator is not a consistent ECMA-262 comparator and
JavaScript leaves the order implementation-defined.) -/
theorem post_listings_sorted :
    (∀ files : List MdFile,
        (∀ p ∈ getAllPosts files, (dateVal p.date).isSome = true) →
        (getAllPosts files).Pairwise
          (fun a b => dateValD b.date ≤ dateValD a.date)) ∧
    (∀ pages : List PageData,
        (∀ p ∈ postsDataTransform pages,
          (dateVal (dateOfPage p)).isSome = true) →
        (postsDataTransform pages).Pairwise
          (fun a b => dateValD (dateOfPage b) ≤ dateValD (dateOfPage a))) := by
  constructor
  · intro files hv
    exact sortBy_dates_sorted Post.date _
      (fun p hp => hv p ((mem_sortBy _ _ _).mpr hp))
  · intro pages hv
    exact sortBy_dates_sorted dateOfPage _
      (fun p hp => hv p ((mem_sortBy _ _ _).mpr hp))

/-- Witness for C5: both listings of the concrete inputs are sorted. -/
theorem post_listings_sorted_witness :
    (getAllPosts c5Files).Pairwise
      (fun a b => dateValD b.date ≤ dateValD a.date) ∧
    (postsDataTransform c5Pages).Pairwise
      (fun a b => dateValD (dateOfPage b) ≤ dateValD (dateOfPage a)) :=
  ⟨post_listings_sorted.1 c5Files (by decide),
   post_listings_sorted.2 c5Pages (by decide)⟩

/-- C7.  A markdown file with no frontmatter block, or whose frontmatter
has no `date` or no `title` key, is silently omitted from `getAllPosts` — the
listing over a directory containing it equals the listing without it, and the
extraction is a total function (no error path). -/
theorem getAllPosts_skips_incomplete :
    ∀ (fs1 fs2 : List MdFile) (f : MdFile),
      (frontmatterOf f.content = none ∨
        (∃ fm, frontmatterOf f.content = some fm ∧
          (fmGet fm "date" = none ∨ fmGet fm "title" = none))) →
      getAllPosts (fs1 ++ f :: fs2) = getAllPosts (fs1 ++ fs2) := by
  intro fs1 fs2 f h
  have hnone : processFile f = none := by
    unfold processFile
    by_cases h1 : strEndsWith f.name ".md" = true
    · by_cases h2 : f.name ∈ excludeFilesSidebar
      · simp [h1, h2]
      · simp only [h1, Bool.not_true, Bool.false_eq_true, if_false, h2,
          if_false]
        rcases h with h | ⟨fm, hfm, hmiss⟩
        · have hx : extractFrontmatter f.content.data = none := by
            cases hx : extractFrontmatter f.content.data with
            | none => rfl
            | some b => rw [frontmatterOf, hx] at h; simp at h
          simp [hx]
        · obtain ⟨body, hbody, hparse⟩ := Option.map_eq_some'.mp hfm
          rcases hmiss with hmiss | hmiss <;>
            simp [hbody, hparse, truthy, hmiss]
    · simp [h1]
  unfold getAllPosts
  simp [List.filterMap_append, List.filterMap_cons, hnone]

/-- Witness for C7: a file with no frontmatter block and a file whose
frontmatter lacks a date are both omitted. -/
theorem getAllPosts_skips_incomplete_witness :
    getAllPosts [⟨"x.md", "hello"⟩] = getAllPosts [] ∧
      getAllPosts [⟨"y.md", "---\ntitle: T\n---\nx"⟩] = getAllPosts [] :=
  ⟨getAllPosts_skips_incomplete [] [] ⟨"x.md", "hello"⟩ (Or.inl rfl),
   getAllPosts_skips_incomplete [] [] ⟨"y.md", "---\ntitle: T\n---\nx"⟩
     (Or.inr ⟨[("title", "T")], rfl, Or.inl rfl⟩)⟩

/-- C6, documenting the code bug.  The sidebar generator's denylist does
exclude `about.md` even with full frontmatter.  But `posts.data.js`
reconstructs a filename from the page URL as `url.split('/').pop() + '.md'`,
and this site's loader URLs carry a `.html` suffix (`about.md` loads as
`/about.html`, as the repository's own `rss.mjs` confirms by stripping that
suffix), so the reconstruction yields `about.html.md`, misses the denylist,
and `about.md` — whose real frontmatter has a date — appears in the content
loader's post listing, contradicting both the denylist's intent (its comment
says "Exclude index, about, archive pages") and the claim. -/
theorem denylist_loader_leak :
    getAllPosts
        [⟨"about.md",
          "---\ntitle: About\ndate: \"2022-10-21T21:17:00.000Z\"\n---\nx"⟩] =
        [] ∧
    filenameOf (loaderUrl "about.md") = "about.html.md" ∧
    postsDataTransform
        [⟨loaderUrl "about.md",
          [("title", "About"), ("date", "2022-10-21T21:17:00.000Z")], none⟩] =
      [⟨loaderUrl "about.md",
        [("title", "About"), ("date", "2022-10-21T21:17:00.000Z")], none⟩] := by
  refine ⟨by decide, by decide, by decide⟩

end Posts

namespace Rss

/-- C8.  `genFeed` adds exactly one item per kept page (URL not excluded
after stripping `.html`, truthy date): an excluded-path or dateless page
contributes no item, the produced items are exactly the kept pages' items up
to order, and (for parsable dates) they are ordered by frontmatter date,
newest first. -/
theorem genFeed_item_spec :
    (∀ (ps1 ps2 : List Posts.PageData) (p : Posts.PageData),
        stripHtmlSuffix p.url ∈ excludePagesFeed ∨
          Posts.truthy (Posts.fmGet p.frontmatter "date") = false →
        genFeedItems (ps1 ++ p :: ps2) = genFeedItems (ps1 ++ ps2)) ∧
    (∀ pages : List Posts.PageData,
        List.Perm (genFeedItems pages) ((pages.filter keepFeed).map itemOf)) ∧
    (∀ pages : List Posts.PageData,
        (∀ p ∈ pages, keepFeed p = true →
          (Posts.dateVal (Posts.dateOfPage p)).isSome = true) →
        (genFeedItems pages).Pairwise
          (fun a b => Posts.dateValD b.date ≤ Posts.dateValD a.date)) := by
  refine ⟨?_, ?_, ?_⟩
  · intro ps1 ps2 p hp
    have hkeep : keepFeed p = false := by
      rcases hp with hp | hp
      · simp [keepFeed, hp]
      · simp [keepFeed, hp]
    unfold genFeedItems
    simp [List.filter_append, List.filter_cons, hkeep]
  · intro pages
    exact ((Posts.perm_sortBy _ _).map itemOf)
  · intro pages hv
    have hsorted := Posts.sortBy_dates_sorted Posts.dateOfPage
      (pages.filter keepFeed)
      (fun p hp => by
        rcases List.mem_filter.mp hp with ⟨hmem, hkeep⟩
        exact hv p hmem hkeep)
    unfold genFeedItems
    exact List.Pairwise.map itemOf (fun a b h => h) hsorted

/-- Witness for C8: the excluded `about` page contributes no item, and the
feed built from the concrete pages is sorted newest-first. -/
theorem genFeed_item_spec_witness :
    genFeedItems
        [⟨"/about.html",
          [("title", "About"), ("date", "2022-10-21T21:17:00.000Z")], none⟩] =
      genFeedItems [] ∧
    (genFeedItems c8Pages).Pairwise
      (fun a b => Posts.dateValD b.date ≤ Posts.dateValD a.date) :=
  ⟨genFeed_item_spec.1 [] []
      ⟨"/about.html",
        [("title", "About"), ("date", "2022-10-21T21:17:00.000Z")], none⟩
      (Or.inl (by decide)),
   genFeed_item_spec.2.2 c8Pages (by decide)⟩

end Rss
